import Mathlib

set_option maxRecDepth 40000


/-!
Verification of the FileVault authenticated-encryption core.

Shallow embedding of the repository's header codec (fileops.FileHeader),
key derivation (crypto.DeriveKey / PBKDF2), AES-GCM cipher engine wiring
(crypto.AESCipher over the Go standard library's GCM mode), the encryption
and decryption pipelines (core.EncryptFile / core.DecryptFile), and the
verification engine (core.VerifyFile / core.VerifyIntegrity).

Bytes are modelled as natural numbers (values < 256 on real data; the
bitwise operations used never need the bound).  External vetted primitives
that the repository merely calls are kept abstract as function parameters:
the AES-256 block cipher (crypto/aes) is a parameter
aes : List Nat -> List Nat -> List Nat (key, 16-byte block to 16-byte block),
HMAC-SHA-256 (the PBKDF2 core) is a parameter
hmac : List Nat -> List Nat -> List Nat (key, message to 32 bytes), and
SHA-256 (header checksum) is a parameter hash : List Nat -> List Nat
(message to 32 bytes).  The GCM mode itself (counter mode + GHASH) is
implemented concretely, mirroring the Go standard library semantics, so
that sealing/opening round-trips are real theorems and not assumptions.
-/

/-- Little-endian 4-byte encoding of a 32-bit value, as binary.Write does
for a uint32. -/
def le32 (n : Nat) : List Nat :=
  [n % 256, n / 256 % 256, n / 65536 % 256, n / 16777216 % 256]

/-- Little-endian 8-byte encoding of a 64-bit value, as binary.Write does
for a uint64. -/
def le64 (n : Nat) : List Nat :=
  [n % 256, n / 256 % 256, n / 65536 % 256, n / 16777216 % 256,
   n / 4294967296 % 256, n / 1099511627776 % 256,
   n / 281474976710656 % 256, n / 72057594037927936 % 256]

/-- Little-endian decoding of a byte list, as binary.Read does. -/
def deLE (l : List Nat) : Nat :=
  l.foldr (fun b acc => b + 256 * acc) 0

/-- Reading exactly k bytes from a stream (io.ReadFull / binary.Read):
succeeds with the bytes and the rest iff at least k bytes remain. -/
def readBytes (k : Nat) (l : List Nat) : Option (List Nat × List Nat) :=
  if k ≤ l.length then some (l.take k, l.drop k) else none

/-- The FVLT magic tag (fileops.MagicBytes "FVLT"). -/
def fvltMagic : List Nat := [70, 86, 76, 84]

/-- fileops.FileHeader: the rich variable-length-name container header. -/
structure FileHeader where
  Magic : List Nat
  Version : Nat
  Algorithm : Nat
  Salt : List Nat
  IV : List Nat
  OriginalSize : Nat
  FileNameLength : Nat
  FileName : List Nat
  Reserved : List Nat
  Checksum : List Nat
deriving DecidableEq, Repr

/-- The serialized byte form of the fields covered by the checksum, in the
order fileops.FileHeader.calculateChecksum hashes them. -/
def headerChecksumInput (h : FileHeader) : List Nat :=
  h.Magic ++ le32 h.Version ++ le32 h.Algorithm ++ h.Salt ++ h.IV ++
    le64 h.OriginalSize ++ le32 h.FileNameLength ++ h.FileName ++ h.Reserved

/-- fileops.FileHeader.calculateChecksum: first 16 bytes of the hash
(SHA-256 in the source, abstract parameter here) over all preceding
fields in serialized order. -/
def calculateChecksum (hash : List Nat → List Nat) (h : FileHeader) : List Nat :=
  (hash (headerChecksumInput h)).take 16

/-- fileops.NewFileHeader: builds a header with magic FVLT, version 1,
algorithm 1 (AES-256-GCM), the given salt/iv/size/name, zero reserved
bytes, and the computed checksum.  uint32(len(fileName)) is modelled as
reduction mod 2^32. -/
def NewFileHeader (hash : List Nat → List Nat) (originalSize : Nat)
    (fileName salt iv : List Nat) : FileHeader :=
  let h0 : FileHeader :=
    { Magic := fvltMagic, Version := 1, Algorithm := 1, Salt := salt,
      IV := iv, OriginalSize := originalSize,
      FileNameLength := fileName.length % 4294967296, FileName := fileName,
      Reserved := List.replicate 32 0, Checksum := List.replicate 16 0 }
  { h0 with Checksum := calculateChecksum hash h0 }

/-- fileops.FileHeader.IsValid: checks only the magic tag and the version,
returning an error (false) otherwise.  Note it does not inspect the
Algorithm or the Checksum. -/
def IsValidB (h : FileHeader) : Bool :=
  h.Magic == fvltMagic && h.Version == 1

/-- fileops.FileHeader.WriteTo: fields in fixed order, all integers
little-endian, the name written verbatim (only when its length field is
positive) after the 4-byte length prefix, checksum last. -/
def writeTo (h : FileHeader) : List Nat :=
  h.Magic ++ le32 h.Version ++ le32 h.Algorithm ++ h.Salt ++ h.IV ++
    le64 h.OriginalSize ++ le32 h.FileNameLength ++
    (if 0 < h.FileNameLength then h.FileName else []) ++
    h.Reserved ++ h.Checksum

/-- fileops.FileHeader.ReadFrom: reads the fields back in the same order;
fails when the stream ends early; rejects a name length above 4096 before
allocating; returns the parsed header and the unread rest of the stream. -/
def readFrom (l : List Nat) : Option (FileHeader × List Nat) :=
  (readBytes 4 l).bind fun p1 =>
  (readBytes 4 p1.2).bind fun p2 =>
  (readBytes 4 p2.2).bind fun p3 =>
  (readBytes 32 p3.2).bind fun p4 =>
  (readBytes 16 p4.2).bind fun p5 =>
  (readBytes 8 p5.2).bind fun p6 =>
  (readBytes 4 p6.2).bind fun p7 =>
  (if deLE p7.1 = 0 then some (([] : List Nat), p7.2)
   else if 4096 < deLE p7.1 then none
   else readBytes (deLE p7.1) p7.2).bind fun pn =>
  (readBytes 32 pn.2).bind fun p8 =>
  (readBytes 16 p8.2).bind fun p9 =>
  some ({ Magic := p1.1, Version := deLE p2.1, Algorithm := deLE p3.1,
          Salt := p4.1, IV := p5.1, OriginalSize := deLE p6.1,
          FileNameLength := deLE p7.1, FileName := pn.1,
          Reserved := p8.1, Checksum := p9.1 }, p9.2)

/-- Well-formedness of a header as enforced by the Go types ([4]byte,
uint32, [32]byte, [16]byte, uint64, [32]byte, [16]byte) together with the
name-length invariant the codec assumes. -/
def WFHeader (h : FileHeader) : Prop :=
  h.Magic.length = 4 ∧ h.Version < 4294967296 ∧ h.Algorithm < 4294967296 ∧
  h.Salt.length = 32 ∧ h.IV.length = 16 ∧
  h.OriginalSize < 18446744073709551616 ∧
  h.FileNameLength = h.FileName.length ∧ h.FileNameLength ≤ 4096 ∧
  h.Reserved.length = 32 ∧ h.Checksum.length = 16

instance (h : FileHeader) : Decidable (WFHeader h) := by
  unfold WFHeader; infer_instance

theorem le32_length (n : Nat) : (le32 n).length = 4 := rfl

theorem le64_length (n : Nat) : (le64 n).length = 8 := rfl

theorem deLE_le32 (n : Nat) (h : n < 4294967296) : deLE (le32 n) = n := by
  simp only [deLE, le32, List.foldr]
  omega

theorem deLE_le64 (n : Nat) (h : n < 18446744073709551616) :
    deLE (le64 n) = n := by
  simp only [deLE, le64, List.foldr]
  omega

theorem readBytes_exact (k : Nat) (a rest : List Nat) (ha : a.length = k) :
    readBytes k (a ++ rest) = some (a, rest) := by
  subst ha
  unfold readBytes
  rw [if_pos (by simp)]
  rw [List.take_left, List.drop_left]

/-- The header codec consumes exactly the serialized bytes and reproduces
the header, whatever trails the header in the stream. -/
theorem readFrom_writeTo (h : FileHeader) (wf : WFHeader h)
    (extra : List Nat) : readFrom (writeTo h ++ extra) = some (h, extra) := by
  obtain ⟨M, V, A, S, IVf, OS, NL, NM, R, C⟩ := h
  obtain ⟨h1, h2, h3, h4, h5, h6, h7, h8, h9, h10⟩ := wf
  simp only at h1 h2 h3 h4 h5 h6 h7 h8 h9 h10
  have hNL32 : NL < 4294967296 := by omega
  by_cases hnl : NL = 0
  · have hnm : NM = [] := List.eq_nil_of_length_eq_zero (by omega)
    subst hnm
    simp only [writeTo, List.append_assoc, if_neg (show ¬ 0 < NL by omega)]
    unfold readFrom
    rw [readBytes_exact 4 M _ h1, Option.some_bind]
    rw [readBytes_exact 4 (le32 V) _ (le32_length V), Option.some_bind]
    rw [readBytes_exact 4 (le32 A) _ (le32_length A), Option.some_bind]
    rw [readBytes_exact 32 S _ h4, Option.some_bind]
    rw [readBytes_exact 16 IVf _ h5, Option.some_bind]
    rw [readBytes_exact 8 (le64 OS) _ (le64_length OS), Option.some_bind]
    rw [readBytes_exact 4 (le32 NL) _ (le32_length NL), Option.some_bind]
    simp only [deLE_le32 V h2, deLE_le32 A h3, deLE_le64 OS h6,
      deLE_le32 NL hNL32, List.nil_append]
    rw [if_pos hnl, Option.some_bind]
    rw [readBytes_exact 32 R _ h9, Option.some_bind]
    rw [readBytes_exact 16 C _ h10, Option.some_bind]
  · simp only [writeTo, List.append_assoc, if_pos (show 0 < NL by omega)]
    unfold readFrom
    rw [readBytes_exact 4 M _ h1, Option.some_bind]
    rw [readBytes_exact 4 (le32 V) _ (le32_length V), Option.some_bind]
    rw [readBytes_exact 4 (le32 A) _ (le32_length A), Option.some_bind]
    rw [readBytes_exact 32 S _ h4, Option.some_bind]
    rw [readBytes_exact 16 IVf _ h5, Option.some_bind]
    rw [readBytes_exact 8 (le64 OS) _ (le64_length OS), Option.some_bind]
    rw [readBytes_exact 4 (le32 NL) _ (le32_length NL), Option.some_bind]
    simp only [deLE_le32 V h2, deLE_le32 A h3, deLE_le64 OS h6,
      deLE_le32 NL hNL32]
    rw [if_neg hnl, if_neg (by omega)]
    rw [readBytes_exact NL NM _ h7.symm, Option.some_bind]
    rw [readBytes_exact 32 R _ h9, Option.some_bind]
    rw [readBytes_exact 16 C _ h10, Option.some_bind]

/-- Serialized length is the 120-byte base plus the name length. -/
theorem writeTo_length (h : FileHeader) (wf : WFHeader h) :
    (writeTo h).length = 120 + h.FileNameLength := by
  obtain ⟨h1, h2, h3, h4, h5, h6, h7, h8, h9, h10⟩ := wf
  simp only [writeTo, List.length_append, h1, h4, h5, h9, h10,
    le32_length, le64_length]
  by_cases hnl : 0 < h.FileNameLength
  · rw [if_pos hnl]; omega
  · rw [if_neg hnl]
    simp only [List.length_nil]
    omega

/-- Byte-wise xor of two buffers (counter-mode combination). -/
def xorBytes (a b : List Nat) : List Nat :=
  List.zipWith (fun x y => x ^^^ y) a b

/-- Big-endian value of a byte list. -/
def bytesBE (l : List Nat) : Nat :=
  l.foldl (fun acc b => acc * 256 + b) 0

/-- Big-endian k-byte encoding of a value. -/
def natBytesBE (k n : Nat) : List Nat :=
  (List.range k).map (fun i => n / 256 ^ (k - 1 - i) % 256)

/-- The GHASH reduction polynomial constant R = 0xe1 followed by 15 zero
bytes, as a 128-bit value. -/
def gcmR : Nat := 225 * 2 ^ 120

/-- Multiplication in GF(2^128) with the GCM bit order (NIST SP 800-38D
algorithm 1), on 128-bit values represented as naturals. -/
def gfMul (x y : Nat) : Nat :=
  ((List.range 128).foldl
    (fun zv i =>
      let z := if x / 2 ^ (127 - i) % 2 = 1 then zv.1 ^^^ zv.2 else zv.1
      let v := if zv.2 % 2 = 1 then (zv.2 / 2) ^^^ gcmR else zv.2 / 2
      (z, v))
    (0, y)).1

/-- Zero padding of a buffer up to a multiple of 16 bytes. -/
def padTo16 (l : List Nat) : List Nat :=
  l ++ List.replicate ((16 - l.length % 16) % 16) 0

/-- Splits a buffer into n chunks of 16 bytes. -/
def chunksN : Nat → List Nat → List (List Nat)
  | 0, _ => []
  | n + 1, l => l.take 16 :: chunksN n (l.drop 16)

/-- GHASH over a buffer whose length is a multiple of 16 bytes. -/
def ghash (H : Nat) (data : List Nat) : Nat :=
  ((chunksN ((data.length + 15) / 16) data).foldl
    (fun y x => gfMul (y ^^^ bytesBE x) H) 0)

/-- The pre-counter block J0 for a 96-bit nonce: nonce followed by the
32-bit block 1. -/
def gcmJ0 (nonce : List Nat) : List Nat :=
  nonce ++ [0, 0, 0, 1]

/-- The inc32 counter increment on a 16-byte block. -/
def inc32 (b : List Nat) : List Nat :=
  b.take 12 ++ natBytesBE 4 ((bytesBE (b.drop 12) + 1) % 4294967296)

/-- i-fold application of inc32 to J0. -/
def iterInc (j0 : List Nat) : Nat → List Nat
  | 0 => j0
  | i + 1 => inc32 (iterInc j0 i)

/-- The first n bytes of the GCM counter-mode keystream for block cipher E
and pre-counter block j0. -/
def gcmKeystream (E : List Nat → List Nat) (j0 : List Nat) (n : Nat) :
    List Nat :=
  (((List.range ((n + 15) / 16)).map (fun i => E (iterInc j0 (i + 1)))).flatten).take n

/-- The GCM authentication tag for ciphertext ct with empty associated
data: E(J0) xor GHASH_H(pad(ct) with the 64-bit bit lengths appended). -/
def gcmTag (E : List Nat → List Nat) (j0 ct : List Nat) : List Nat :=
  let H := bytesBE (E (List.replicate 16 0))
  let S := ghash H (padTo16 ct ++ natBytesBE 8 0 ++ natBytesBE 8 (8 * ct.length))
  xorBytes (E j0) (natBytesBE 16 S)

/-- cipher.AEAD Seal for AES-GCM with a 96-bit nonce and no associated
data: ciphertext (plaintext xor keystream) with the 16-byte tag appended,
as the Go standard library produces it. -/
def gcmSeal (E : List Nat → List Nat) (nonce pt : List Nat) : List Nat :=
  let j0 := gcmJ0 nonce
  let ct := xorBytes pt (gcmKeystream E j0 pt.length)
  ct ++ gcmTag E j0 ct

/-- cipher.AEAD Open for AES-GCM: splits off the trailing 16-byte tag,
recomputes it over the ciphertext, and on a match returns the plaintext;
fails atomically otherwise. -/
def gcmOpen (E : List Nat → List Nat) (nonce ctFull : List Nat) :
    Option (List Nat) :=
  if ctFull.length < 16 then none
  else
    let n := ctFull.length - 16
    let ct := ctFull.take n
    let tag := ctFull.drop n
    let j0 := gcmJ0 nonce
    if gcmTag E j0 ct = tag then some (xorBytes ct (gcmKeystream E j0 n))
    else none

/-- crypto.AESCipher: holds the 32-byte key. -/
structure AESCipher where
  key : List Nat
deriving DecidableEq, Repr

/-- crypto.NewAESCipher: accepts exactly 32-byte keys. -/
def NewAESCipher (key : List Nat) : Option AESCipher :=
  if key.length = 32 then some { key := key } else none

/-- Modelled from the spec: AESCipher.EncryptWithNonce is called by
core.encryptSmallFile but its definition is missing from the sources;
following spec sections 4.3 and 4.4 it AES-256-GCM-encrypts the plaintext
with the caller-supplied 12-byte nonce, producing a ciphertext of the
plaintext's length and a detached 16-byte authentication tag (the same
Seal-and-split shape as the source's AESCipher.Encrypt, with the supplied
nonce instead of a fresh random one). -/
def EncryptWithNonce (E : List Nat → List Nat) (pt nonce : List Nat) :
    List Nat × List Nat :=
  let full := gcmSeal E nonce pt
  (full.take (full.length - 16), full.drop (full.length - 16))

/-- crypto.AESCipher.Decrypt: validates the nonce and tag lengths,
reassembles ciphertext-with-tag, and opens it with GCM. -/
def AESDecrypt (E : List Nat → List Nat) (nonce ct tag : List Nat) :
    Option (List Nat) :=
  if nonce.length ≠ 12 then none
  else if tag.length ≠ 16 then none
  else gcmOpen E nonce (ct ++ tag)

/-- One PBKDF2 inner loop: iterates U = prf(U), xor-accumulating into T
(the loop for n = 2..iter in x/crypto/pbkdf2). -/
def pbkdf2Loop (prf : List Nat → List Nat) :
    Nat → List Nat → List Nat → List Nat
  | 0, _, T => T
  | n + 1, U, T =>
      let U' := prf U
      pbkdf2Loop prf n U' (xorBytes T U')

/-- One PBKDF2 output block T_i = U_1 xor ... xor U_iter with
U_1 = prf(salt with the 4-byte big-endian block index appended). -/
def pbkdf2Block (prf : List Nat → List Nat) (salt : List Nat)
    (blockIndex iter : Nat) : List Nat :=
  let U1 := prf (salt ++ natBytesBE 4 blockIndex)
  pbkdf2Loop prf (iter - 1) U1 U1

/-- x/crypto/pbkdf2 Key with an HMAC-SHA-256 core (32-byte PRF output):
concatenates ceil(keyLen/32) blocks and truncates to keyLen. -/
def pbkdf2Key (prf : List Nat → List Nat) (salt : List Nat)
    (iter keyLen : Nat) : List Nat :=
  (((List.range ((keyLen + 31) / 32)).map
      (fun b => pbkdf2Block prf salt (b + 1) iter)).flatten).take keyLen

/-- crypto.DeriveKey: replaces a non-positive iteration count by the
default 100000 and runs PBKDF2 with the password-keyed HMAC to a 32-byte
key. -/
def DeriveKey (hmac : List Nat → List Nat → List Nat)
    (password salt : List Nat) (iterations : Int) : List Nat :=
  let iters := if iterations ≤ 0 then 100000 else iterations.toNat
  pbkdf2Key (hmac password) salt iters 32

/-- crypto.NewAESCipherFromPassword: derives the key with the default
iteration count and builds the cipher. -/
def NewAESCipherFromPassword (hmac : List Nat → List Nat → List Nat)
    (password salt : List Nat) : Option AESCipher :=
  NewAESCipher (DeriveKey hmac password salt 100000)

/-- crypto.SecureZero: overwrites every byte of the buffer with 0. -/
def SecureZero (data : List Nat) : List Nat :=
  data.map (fun _ => 0)

theorem xorBytes_length (a b : List Nat) :
    (xorBytes a b).length = min a.length b.length := by
  simp [xorBytes]

theorem xorBytes_cancel (a b : List Nat) (h : b.length = a.length) :
    xorBytes (xorBytes a b) b = a := by
  induction a generalizing b with
  | nil => cases b <;> simp [xorBytes]
  | cons x xs ih =>
    cases b with
    | nil => simp at h
    | cons y ys =>
      simp only [xorBytes, List.zipWith] at *
      rw [Nat.xor_cancel_right, ih ys (by simpa using h)]

theorem natBytesBE_length (k n : Nat) : (natBytesBE k n).length = k := by
  simp [natBytesBE]

theorem gcmKeystream_length (E : List Nat → List Nat)
    (hE : ∀ b, (E b).length = 16) (j0 : List Nat) (n : Nat) :
    (gcmKeystream E j0 n).length = n := by
  simp only [gcmKeystream, List.length_take, List.length_flatten, List.map_map]
  have hsum : ((List.range ((n + 15) / 16)).map
      (fun i => ((fun i => E (iterInc j0 (i + 1))) i).length)).sum
      = ((n + 15) / 16) * 16 := by
    have hconst : ∀ i ∈ List.range ((n + 15) / 16),
        ((fun i => E (iterInc j0 (i + 1))) i).length = 16 := by
      intro i _
      exact hE _
    rw [List.map_congr_left hconst]
    simp [List.map_const', List.sum_replicate, smul_eq_mul]
  rw [Function.comp_def, hsum]
  omega

theorem gcmTag_length (E : List Nat → List Nat)
    (hE : ∀ b, (E b).length = 16) (j0 ct : List Nat) :
    (gcmTag E j0 ct).length = 16 := by
  simp [gcmTag, xorBytes_length, hE, natBytesBE_length]

/-- GCM open inverts GCM seal for the same block cipher and nonce: the
recomputed keystream cancels and the recomputed tag matches the stored
one. -/
theorem gcmOpen_gcmSeal (E : List Nat → List Nat)
    (hE : ∀ b, (E b).length = 16) (nonce pt : List Nat) :
    gcmOpen E nonce (gcmSeal E nonce pt) = some pt := by
  have hks := gcmKeystream_length E hE (gcmJ0 nonce) pt.length
  have hct : (xorBytes pt (gcmKeystream E (gcmJ0 nonce) pt.length)).length
      = pt.length := by
    rw [xorBytes_length, hks]
    omega
  have htag := gcmTag_length E hE (gcmJ0 nonce)
    (xorBytes pt (gcmKeystream E (gcmJ0 nonce) pt.length))
  unfold gcmSeal gcmOpen
  simp only
  rw [if_neg (by simp only [List.length_append, hct, htag]; omega)]
  have hlen : (xorBytes pt (gcmKeystream E (gcmJ0 nonce) pt.length)
      ++ gcmTag E (gcmJ0 nonce)
        (xorBytes pt (gcmKeystream E (gcmJ0 nonce) pt.length))).length - 16
      = pt.length := by
    simp only [List.length_append, hct, htag]
    omega
  rw [hlen]
  rw [List.take_left' hct, List.drop_left' hct]
  rw [if_pos rfl]
  rw [xorBytes_cancel pt _ hks]

theorem pbkdf2Loop_length (prf : List Nat → List Nat)
    (hprf : ∀ x, (prf x).length = 32) :
    ∀ (n : Nat) (U T : List Nat), T.length = 32 →
      (pbkdf2Loop prf n U T).length = 32 := by
  intro n
  induction n with
  | zero => intro U T hT; simpa [pbkdf2Loop]
  | succ m ih =>
    intro U T hT
    simp only [pbkdf2Loop]
    exact ih (prf U) _ (by rw [xorBytes_length, hT, hprf]; rfl)

theorem deriveKey_length (hmac : List Nat → List Nat → List Nat)
    (hH : ∀ k m, (hmac k m).length = 32) (p s : List Nat) (n : Int) :
    (DeriveKey hmac p s n).length = 32 := by
  have hblock : ∀ iter, (pbkdf2Block (hmac p) s 1 iter).length = 32 := by
    intro iter
    unfold pbkdf2Block
    exact pbkdf2Loop_length (hmac p) (fun x => hH p x) _ _ _ (hH p _)
  unfold DeriveKey pbkdf2Key
  simp only [show (32 + 31) / 32 = 1 from rfl,
    show List.range 1 = [0] from rfl, List.map_cons, List.map_nil,
    List.flatten_cons, List.flatten_nil, List.append_nil, List.length_take,
    Nat.zero_add, hblock, Nat.min_self]

/-- core.EncryptFile / encryptSmallFile, for an in-memory file: builds the
header from the generated salt/iv and the input's base name and size,
writes header then ciphertext then the 16-byte tag.  The streaming branch
for large files falls back to this same whole-buffer path in the source.
Returns none only when cipher creation fails. -/
def EncryptFileM (aes : List Nat → List Nat → List Nat)
    (hmac : List Nat → List Nat → List Nat) (hash : List Nat → List Nat)
    (inputName content salt iv password : List Nat) : Option (List Nat) :=
  let header := NewFileHeader hash (content.length % 18446744073709551616)
    inputName salt iv
  (NewAESCipherFromPassword hmac password salt).bind fun c =>
  let nonce := iv.take 12
  let enc := EncryptWithNonce (aes c.key) content nonce
  some (writeTo header ++ enc.1 ++ enc.2)

/-- The distinguishable exits of core.DecryptFile.  makePanic is the Go
runtime panic raised by make with a negative length. -/
inductive DecryptOutcome where
  | success (plaintext : List Nat)
  | headerReadError
  | invalidFormat
  | cipherError
  | makePanic
  | readCiphertextError
  | readTagError
  | authError
  | sizeMismatch
deriving DecidableEq, Repr

/-- core.DecryptFile / DecryptFileWithProgress on an in-memory file, step
for step: read and validate the header, create the cipher from the
password and the header salt (before any size computation), compute the
encrypted-data size as fileSize - headerTotalSize - tagSize, allocate and
read that many bytes, read the 16-byte tag, decrypt with the first 12 IV
bytes as nonce, and compare the plaintext length with the header's
original size. -/
def DecryptFileM (aes : List Nat → List Nat → List Nat)
    (hmac : List Nat → List Nat → List Nat)
    (fileBytes password : List Nat) : DecryptOutcome :=
  (readFrom fileBytes).elim DecryptOutcome.headerReadError fun hr =>
  if IsValidB hr.1 = false then .invalidFormat
  else
    (NewAESCipherFromPassword hmac password hr.1.Salt).elim
      DecryptOutcome.cipherError fun c =>
    let encSize : Int :=
      (fileBytes.length : Int) - ((120 : Int) + hr.1.FileName.length) - 16
    if encSize < 0 then .makePanic
    else if hr.2.length < encSize.toNat then .readCiphertextError
    else
      let encryptedData := hr.2.take encSize.toNat
      let rest2 := hr.2.drop encSize.toNat
      if rest2.length < 16 then .readTagError
      else
        let authTag := rest2.take 16
        (AESDecrypt (aes c.key) (hr.1.IV.take 12) encryptedData authTag).elim
          DecryptOutcome.authError fun pt =>
        if pt.length % 18446744073709551616 ≠ hr.1.OriginalSize then
          .sizeMismatch
        else .success pt

/-- core.VerificationResult (error message and timing elided: the claims
are about the flags and the derived metadata). -/
structure VerificationResult where
  IsValid : Bool := false
  FormatValid : Bool := false
  HeaderValid : Bool := false
  SizeConsistent : Bool := false
  FileAccessible : Bool := false
  OriginalFilename : List Nat := []
  FileSize : Nat := 0
  OriginalSize : Nat := 0
  FormatVersion : Nat := 0
deriving DecidableEq, Repr

/-- core.VerifyFile on an in-memory file system: none models an
inaccessible path.  Checks run in order: accessibility, magic tag
(security.IsEncryptedFile reads the first 4 bytes), header parse plus
IsValid, and total size at least headerTotalSize + tagSize; each failure
returns immediately with the later flags still false. -/
def VerifyFileM (file : Option (List Nat)) : VerificationResult :=
  file.elim {} fun bytes =>
    let r0 : VerificationResult :=
      { FileAccessible := true, FileSize := bytes.length }
    if ¬ (4 ≤ bytes.length ∧ bytes.take 4 = fvltMagic) then r0
    else
      let r1 := { r0 with FormatValid := true }
      (readFrom bytes).elim r1 fun hr =>
        if IsValidB hr.1 = false then r1
        else
          let r2 := { r1 with
                      HeaderValid := true,
                      OriginalFilename := hr.1.FileName,
                      OriginalSize := hr.1.OriginalSize,
                      FormatVersion := hr.1.Version }
          if bytes.length < 120 + hr.1.FileName.length + 16 then r2
          else { r2 with SizeConsistent := true, IsValid := true }

/-- core.VerifyIntegrity: runs VerifyFile, and when the result is valid
re-reads the header and returns the basic result unchanged — the
password-based dry-run decryption is left unimplemented in the source, so
the password argument is never used. -/
def VerifyIntegrityM (file : Option (List Nat)) (password : List Nat) :
    VerificationResult :=
  let r := VerifyFileM file
  if r.IsValid = false then r
  else
    file.elim r fun bytes =>
      (readFrom bytes).elim { r with IsValid := false } fun _ => r

/-- The buffer state of core.encryptSmallFile at its successful return:
the bytes written after the header, the plaintext buffer (zeroed by
crypto.SecureZero just before returning), and the cipher's key buffer,
which no code path ever zeroes. -/
structure EncryptExitState where
  output : List Nat
  plaintextBuf : List Nat
  keyBuf : List Nat
deriving DecidableEq, Repr

/-- core.encryptSmallFile with its transient buffers made explicit: reads
the whole plaintext, encrypts it with the first 12 IV bytes as nonce,
writes ciphertext then tag, and calls SecureZero on the plaintext buffer
only; the key buffer is returned as the cipher holds it. -/
def EncryptSmallFileBuf (E : List Nat → List Nat) (key content iv : List Nat) :
    EncryptExitState :=
  let plaintext := content
  let nonce := iv.take 12
  let enc := EncryptWithNonce E plaintext nonce
  { output := enc.1 ++ enc.2,
    plaintextBuf := SecureZero plaintext,
    keyBuf := key }

/-- core.EncryptFile with the exit-time buffer state of its small-file
path: header bytes plus the encryptSmallFile exit state. -/
def EncryptFilePipeline (aes : List Nat → List Nat → List Nat)
    (hmac : List Nat → List Nat → List Nat) (hash : List Nat → List Nat)
    (inputName content salt iv password : List Nat) :
    Option (List Nat × EncryptExitState) :=
  let header := NewFileHeader hash (content.length % 18446744073709551616)
    inputName salt iv
  (NewAESCipherFromPassword hmac password salt).bind fun c =>
  some (writeTo header, EncryptSmallFileBuf (aes c.key) c.key content iv)

theorem gcmSeal_length (E : List Nat → List Nat)
    (hE : ∀ b, (E b).length = 16) (nonce pt : List Nat) :
    (gcmSeal E nonce pt).length = pt.length + 16 := by
  have hks := gcmKeystream_length E hE (gcmJ0 nonce) pt.length
  have hct : (xorBytes pt (gcmKeystream E (gcmJ0 nonce) pt.length)).length
      = pt.length := by
    rw [xorBytes_length, hks]
    omega
  simp only [gcmSeal, List.length_append, hct,
    gcmTag_length E hE (gcmJ0 nonce) _]

theorem encryptWithNonce_append (E : List Nat → List Nat)
    (pt nonce : List Nat) :
    (EncryptWithNonce E pt nonce).1 ++ (EncryptWithNonce E pt nonce).2
      = gcmSeal E nonce pt := by
  simp [EncryptWithNonce]

theorem encryptWithNonce_fst_length (E : List Nat → List Nat)
    (hE : ∀ b, (E b).length = 16) (pt nonce : List Nat) :
    (EncryptWithNonce E pt nonce).1.length = pt.length := by
  simp only [EncryptWithNonce, List.length_take,
    gcmSeal_length E hE nonce pt]
  omega

theorem encryptWithNonce_snd_length (E : List Nat → List Nat)
    (hE : ∀ b, (E b).length = 16) (pt nonce : List Nat) :
    (EncryptWithNonce E pt nonce).2.length = 16 := by
  simp only [EncryptWithNonce, List.length_drop,
    gcmSeal_length E hE nonce pt]
  omega

theorem NewFileHeader_wf (hash : List Nat → List Nat)
    (hS : ∀ m, (hash m).length = 32) (os : Nat) (nm salt iv : List Nat)
    (hos : os < 18446744073709551616) (hname : nm.length ≤ 4096)
    (hsalt : salt.length = 32) (hiv : iv.length = 16) :
    WFHeader (NewFileHeader hash os nm salt iv) := by
  have hmod : nm.length % 4294967296 = nm.length := Nat.mod_eq_of_lt (by omega)
  refine ⟨?_, ?_, ?_, ?_, ?_, ?_, ?_, ?_, ?_, ?_⟩ <;>
    simp [NewFileHeader, fvltMagic, calculateChecksum, hS, hsalt, hiv, hmod,
      hname, hos]

theorem IsValidB_NewFileHeader (hash : List Nat → List Nat) (os : Nat)
    (nm salt iv : List Nat) :
    IsValidB (NewFileHeader hash os nm salt iv) = true := by
  simp [IsValidB, NewFileHeader]

/-- Claim C1: encrypting a byte sequence with a password and decrypting
the produced container with the same password succeeds and recovers
exactly the original bytes, for any AES block-cipher instance, any
32-byte-output HMAC and hash, any name of codec-admissible length, any
32-byte salt and 16-byte IV, and any content shorter than 2^64 bytes. -/
theorem encrypt_decrypt_roundTrip
    (aes hmac : List Nat → List Nat → List Nat) (hash : List Nat → List Nat)
    (name content salt iv password : List Nat)
    (hA : ∀ k b, (aes k b).length = 16)
    (hH : ∀ k m, (hmac k m).length = 32)
    (hS : ∀ m, (hash m).length = 32)
    (hname : name.length ≤ 4096)
    (hsalt : salt.length = 32) (hiv : iv.length = 16)
    (hcontent : content.length < 18446744073709551616) :
    ∃ container,
      EncryptFileM aes hmac hash name content salt iv password
        = some container ∧
      DecryptFileM aes hmac container password = .success content := by
  classical
  set key := DeriveKey hmac password salt 100000 with hkeydef
  have hkey : key.length = 32 := deriveKey_length hmac hH password salt 100000
  have hcipher : NewAESCipherFromPassword hmac password salt
      = some { key := key } := by
    rw [NewAESCipherFromPassword, NewAESCipher, ← hkeydef, if_pos hkey]
  set E := aes key with hEdef
  have hE : ∀ b, (E b).length = 16 := fun b => hA key b
  set header := NewFileHeader hash (content.length % 18446744073709551616)
    name salt iv with hheader
  have hwf : WFHeader header :=
    NewFileHeader_wf hash hS _ name salt iv
      (Nat.mod_lt _ (by omega)) hname hsalt hiv
  set enc := EncryptWithNonce E content (iv.take 12) with hencdef
  have henc1 : enc.1.length = content.length :=
    encryptWithNonce_fst_length E hE content (iv.take 12)
  have henc2 : enc.2.length = 16 :=
    encryptWithNonce_snd_length E hE content (iv.take 12)
  refine ⟨writeTo header ++ enc.1 ++ enc.2, ?_, ?_⟩
  · rw [EncryptFileM]
    rw [hcipher, Option.some_bind]
  · have hread : readFrom (writeTo header ++ enc.1 ++ enc.2)
        = some (header, enc.1 ++ enc.2) := by
      rw [List.append_assoc]
      exact readFrom_writeTo header hwf (enc.1 ++ enc.2)
    have hfnl : header.FileNameLength = name.length := by
      rw [hheader]
      simp [NewFileHeader]
      omega
    have hfn : header.FileName = name := by
      rw [hheader]; simp [NewFileHeader]
    have hsaltf : header.Salt = salt := by
      rw [hheader]; simp [NewFileHeader]
    have hivf : header.IV = iv := by
      rw [hheader]; simp [NewFileHeader]
    have hosf : header.OriginalSize
        = content.length % 18446744073709551616 := by
      rw [hheader]; simp [NewFileHeader]
    have hlen : (writeTo header ++ enc.1 ++ enc.2).length
        = 120 + name.length + content.length + 16 := by
      simp only [List.length_append, writeTo_length header hwf, hfnl,
        henc1, henc2]
    unfold DecryptFileM
    rw [hread, Option.elim_some]
    dsimp only
    rw [IsValidB_NewFileHeader hash _ name salt iv, if_neg (by simp)]
    rw [hsaltf, hcipher, Option.elim_some]
    have hencint : ((writeTo header ++ enc.1 ++ enc.2).length : Int)
        - ((120 : Int) + (header.FileName.length : Int)) - 16
        = (content.length : Int) := by
      rw [hlen, hfn]
      push_cast
      ring
    rw [hencint]
    rw [if_neg (by omega)]
    rw [Int.toNat_natCast]
    have hkproj : ({ key := key } : AESCipher).key = key := by
      with_reducible rfl
    rw [hkproj]
    have hr2len : (enc.1 ++ enc.2).length = content.length + 16 := by
      simp [henc1, henc2]
    rw [if_neg (by rw [hr2len]; omega)]
    rw [List.take_left' henc1, List.drop_left' henc1]
    rw [if_neg (by rw [henc2]; omega)]
    have htake16 : enc.2.take 16 = enc.2 := by
      rw [← henc2, List.take_length]
    rw [htake16]
    have hdec : AESDecrypt (aes key) (header.IV.take 12) enc.1 enc.2
        = some content := by
      rw [AESDecrypt, hivf]
      rw [if_neg (by simp [List.length_take, hiv])]
      rw [if_neg (by rw [henc2]; simp)]
      rw [← hEdef, hencdef, encryptWithNonce_append E content (iv.take 12)]
      exact gcmOpen_gcmSeal E hE (iv.take 12) content
    rw [hdec, Option.elim_some]
    rw [if_neg (by rw [hosf]; simp)]

/-- A degenerate block cipher used only to instantiate the abstract AES
parameter in concrete witnesses. -/
def aesZ : List Nat → List Nat → List Nat := fun _ _ => List.replicate 16 0

/-- A degenerate 32-byte HMAC used only to instantiate the abstract HMAC
parameter in concrete witnesses. -/
def hmacZ : List Nat → List Nat → List Nat := fun _ _ => List.replicate 32 0

/-- A degenerate 32-byte hash used only to instantiate the abstract hash
parameter in concrete witnesses. -/
def hashZ : List Nat → List Nat := fun _ => List.replicate 32 0

/-- A content-sensitive 32-byte hash: its first byte is the byte sum of
the message, so corrupting a single header byte changes the checksum. -/
def hashSum : List Nat → List Nat :=
  fun m => (m.sum % 256) :: List.replicate 31 0

theorem encrypt_decrypt_roundTrip_witness :
    (∀ k b, (aesZ k b).length = 16) ∧
    (([97] : List Nat).length ≤ 4096) ∧
    (∃ container,
      EncryptFileM aesZ hmacZ hashZ [97] [72, 105] (List.replicate 32 0)
        (List.replicate 16 0) [112] = some container ∧
      DecryptFileM aesZ hmacZ container [112]
        = DecryptOutcome.success [72, 105]) :=
  ⟨fun k b => by simp [aesZ], by decide,
   encrypt_decrypt_roundTrip aesZ hmacZ hashZ [97] [72, 105]
     (List.replicate 32 0) (List.replicate 16 0) [112]
     (fun k b => by simp [aesZ]) (fun k m => by simp [hmacZ])
     (fun m => by simp [hashZ]) (by decide) (by simp) (by simp)
     (by norm_num)⟩

/-- A concrete sample header used to evaluate the codec on explicit
bytes. -/
def hdrDemo : FileHeader :=
  { Magic := fvltMagic, Version := 1, Algorithm := 1,
    Salt := List.replicate 32 7, IV := List.replicate 16 3,
    OriginalSize := 5, FileNameLength := 1, FileName := [97],
    Reserved := List.replicate 32 0, Checksum := List.replicate 16 9 }

/-- Claim C3: for every header whose name-length field matches its name
and is at most 4096 (and whose remaining fields satisfy the Go type
shapes), serialization in the fixed field order produces exactly
120 + nameLength bytes and deserializing them returns the original
header. -/
theorem header_serialize_roundTrip (h : FileHeader) (wf : WFHeader h) :
    (writeTo h).length = 120 + h.FileNameLength ∧
    readFrom (writeTo h) = some (h, []) := by
  refine ⟨writeTo_length h wf, ?_⟩
  have hrt := readFrom_writeTo h wf []
  rwa [List.append_nil] at hrt

theorem header_serialize_roundTrip_witness :
    WFHeader hdrDemo ∧
    ((writeTo hdrDemo).length = 120 + hdrDemo.FileNameLength ∧
     readFrom (writeTo hdrDemo) = some (hdrDemo, [])) :=
  ⟨by decide, header_serialize_roundTrip hdrDemo (by decide)⟩

/-- Claim C10: DeriveKey never rejects an iteration count — any
non-positive value is silently replaced by the default 100000, and for
every input it deterministically returns a 32-byte key. -/
theorem deriveKey_defaulting (hmac : List Nat → List Nat → List Nat)
    (p s : List Nat) (n : Int) (hn : n ≤ 0)
    (hH : ∀ k m, (hmac k m).length = 32) :
    DeriveKey hmac p s n = DeriveKey hmac p s 100000 ∧
    (DeriveKey hmac p s n).length = 32 := by
  constructor
  · unfold DeriveKey
    rw [if_pos hn, if_neg (by norm_num)]
    rw [show ((100000 : Int)).toNat = 100000 from rfl]
  · exact deriveKey_length hmac hH p s n

theorem deriveKey_defaulting_witness :
    ((-3 : Int) ≤ 0) ∧ (∀ k m, (hmacZ k m).length = 32) ∧
    (DeriveKey hmacZ [112] [115] (-3) = DeriveKey hmacZ [112] [115] 100000 ∧
     (DeriveKey hmacZ [112] [115] (-3)).length = 32) :=
  ⟨by decide, fun k m => by simp [hmacZ],
   deriveKey_defaulting hmacZ [112] [115] (-3) (by decide)
     (fun k m => by simp [hmacZ])⟩

/-- Claim C6: VerifyFile evaluates its four checks in the strict order
fileAccessible, formatValid, headerValid, sizeConsistent, short-circuits
at the first failure (so every later flag stays false), sets IsValid
exactly when all four hold, and on a 0-byte file reports
fileAccessible = true with formatValid = false. -/
theorem verifyFile_ordering :
    (∀ f, (VerifyFileM f).IsValid
        = ((VerifyFileM f).FileAccessible && (VerifyFileM f).FormatValid &&
           (VerifyFileM f).HeaderValid && (VerifyFileM f).SizeConsistent) ∧
      ((VerifyFileM f).FileAccessible = false →
        (VerifyFileM f).FormatValid = false) ∧
      ((VerifyFileM f).FormatValid = false →
        (VerifyFileM f).HeaderValid = false) ∧
      ((VerifyFileM f).HeaderValid = false →
        (VerifyFileM f).SizeConsistent = false)) ∧
    (VerifyFileM (some [])).FileAccessible = true ∧
    (VerifyFileM (some [])).FormatValid = false := by
  refine ⟨?_, by decide, by decide⟩
  intro f
  cases f with
  | none => decide
  | some bytes =>
    unfold VerifyFileM
    rw [Option.elim_some]
    dsimp only
    by_cases h1 : ¬ (4 ≤ bytes.length ∧ bytes.take 4 = fvltMagic)
    · rw [if_pos h1]
      simp
    · rw [if_neg h1]
      cases hroe : readFrom bytes with
      | none =>
        rw [Option.elim_none]
        simp
      | some hr =>
        rw [Option.elim_some]
        by_cases h2 : IsValidB hr.1 = false
        · rw [if_pos h2]
          simp
        · rw [if_neg h2]
          by_cases h3 : bytes.length < 120 + hr.1.FileName.length + 16
          · rw [if_pos h3]
            simp
          · rw [if_neg h3]
            simp

theorem verifyFile_ordering_witness :
    (VerifyFileM (some [])).FormatValid = false ∧
    (VerifyFileM (some [])).HeaderValid = false :=
  ⟨by decide, (verifyFile_ordering.1 (some [])).2.2.1 (by decide)⟩

/-- Projections of VerifyFile on a stream that starts with a serialized
well-formed header carrying the right magic and version: the header
checks pass and only the size comparison decides the final flags. -/
theorem verifyFile_layout (h : FileHeader) (extra : List Nat)
    (wf : WFHeader h) (hm : h.Magic = fvltMagic) (hv : h.Version = 1) :
    (VerifyFileM (some (writeTo h ++ extra))).HeaderValid = true ∧
    (VerifyFileM (some (writeTo h ++ extra))).SizeConsistent
      = !decide ((writeTo h ++ extra).length
          < 120 + h.FileName.length + 16) ∧
    (VerifyFileM (some (writeTo h ++ extra))).IsValid
      = !decide ((writeTo h ++ extra).length
          < 120 + h.FileName.length + 16) := by
  have hwl : (writeTo h).length = 120 + h.FileName.length := by
    rw [writeTo_length h wf]
    rw [wf.2.2.2.2.2.2.1]
  have hmagic4 : (writeTo h ++ extra).take 4 = fvltMagic := by
    unfold writeTo
    simp only [List.append_assoc]
    rw [List.take_left' wf.1, hm]
  have hlen4 : 4 ≤ (writeTo h ++ extra).length := by
    rw [List.length_append, hwl]
    omega
  unfold VerifyFileM
  rw [Option.elim_some]
  dsimp only
  rw [if_neg (not_not_intro ⟨hlen4, hmagic4⟩)]
  rw [readFrom_writeTo h wf extra, Option.elim_some]
  dsimp only
  rw [if_neg (by simp [IsValidB, hm, hv])]
  have hcond : ((writeTo h ++ extra).length < 120 + h.FileName.length + 16)
      ↔ extra.length < 16 := by
    rw [List.length_append, hwl]
    omega
  simp only [hcond]
  by_cases h16 : extra.length < 16
  · rw [if_pos h16]
    simp [h16]
  · rw [if_neg h16]
    simp [h16]

/-- A concrete valid container for a 1-byte plaintext: serialized header
(name of length 1, originalSize 1) followed by one ciphertext byte and a
16-byte tag. -/
def c7Container : List Nat :=
  writeTo (NewFileHeader hashSum 1 [97] (List.replicate 32 0)
    (List.replicate 16 0)) ++ [88] ++ List.replicate 16 0

/-- Claim C7 counterexample: this 138-byte container verifies as valid,
yet removing its last byte leaves sizeConsistent true: the truncated
size 137 still reaches headerSize (121) + tagSize (16) = 137, since the
size check only compares against headerSize + tagSize. -/
theorem verify_truncation_cex :
    (VerifyFileM (some c7Container)).IsValid = true ∧
    (VerifyFileM (some c7Container.dropLast)).SizeConsistent = true := by
  decide

/-- Claim C7 (amended): removing the last byte of a valid container makes
the size-consistency check fail exactly when the container's ciphertext
is empty; with any nonempty ciphertext the truncated file still satisfies
sizeConsistent. -/
theorem verify_truncated_container (h : FileHeader) (ct tag : List Nat)
    (wf : WFHeader h) (hm : h.Magic = fvltMagic) (hv : h.Version = 1)
    (htag : tag.length = 16) :
    (VerifyFileM (some (writeTo h ++ (ct ++ tag)))).IsValid = true ∧
    ((VerifyFileM (some ((writeTo h ++ (ct ++ tag)).dropLast))).SizeConsistent
        = false ↔ ct = []) := by
  have hwl : (writeTo h).length = 120 + h.FileName.length := by
    rw [writeTo_length h wf, wf.2.2.2.2.2.2.1]
  have hne : ct ++ tag ≠ [] := by
    intro hE
    have : (ct ++ tag).length = 0 := by rw [hE]; rfl
    rw [List.length_append, htag] at this
    omega
  have hdrop : (writeTo h ++ (ct ++ tag)).dropLast
      = writeTo h ++ (ct ++ tag).dropLast :=
    List.dropLast_append_of_ne_nil _ hne
  obtain ⟨hv1, hs1, hi1⟩ := verifyFile_layout h (ct ++ tag) wf hm hv
  obtain ⟨hv2, hs2, hi2⟩ := verifyFile_layout h ((ct ++ tag).dropLast) wf hm hv
  constructor
  · rw [hi1]
    have hc : ¬ ((writeTo h ++ (ct ++ tag)).length
        < 120 + h.FileName.length + 16) := by
      rw [List.length_append, hwl, List.length_append, htag]
      omega
    rw [decide_eq_false hc]
    rfl
  · rw [hdrop, hs2]
    have hlen2 : ((ct ++ tag).dropLast).length = ct.length + 15 := by
      rw [List.length_dropLast, List.length_append, htag]
      omega
    have hc2 : ((writeTo h ++ (ct ++ tag).dropLast).length
        < 120 + h.FileName.length + 16) ↔ ct = [] := by
      rw [List.length_append, hwl, hlen2]
      constructor
      · intro hlt
        exact List.eq_nil_of_length_eq_zero (by omega)
      · intro hE
        subst hE
        simp
    simp only [hc2]
    by_cases hct : ct = [] <;> simp [hct]

/-- A concrete header for the truncation witness: empty ciphertext
container (originalSize 0). -/
def c7wHdr : FileHeader :=
  NewFileHeader hashSum 0 [97] (List.replicate 32 0) (List.replicate 16 0)

theorem verify_truncated_container_witness :
    WFHeader c7wHdr ∧ (List.replicate 16 0 : List Nat).length = 16 ∧
    ((VerifyFileM (some (writeTo c7wHdr
        ++ (([] : List Nat) ++ List.replicate 16 0)))).IsValid = true ∧
     ((VerifyFileM (some ((writeTo c7wHdr
        ++ (([] : List Nat) ++ List.replicate 16 0)).dropLast))).SizeConsistent
        = false ↔ ([] : List Nat) = [])) :=
  ⟨by decide, by decide,
   verify_truncated_container c7wHdr [] (List.replicate 16 0) (by decide)
     (by decide) (by decide) (by decide)⟩

/-- A header carrying an unrecognized algorithm identifier (99) with
correct magic and version. -/
def hdrBadAlg : FileHeader :=
  { Magic := fvltMagic, Version := 1, Algorithm := 99,
    Salt := List.replicate 32 0, IV := List.replicate 16 0,
    OriginalSize := 0, FileNameLength := 0, FileName := [],
    Reserved := List.replicate 32 0, Checksum := List.replicate 16 0 }

/-- Claim C8 counterexample: a header with the unrecognized algorithmId
99 passes IsValid, and a container built from it is marked valid by
verification. -/
theorem algorithm_not_validated_cex :
    IsValidB hdrBadAlg = true ∧
    (VerifyFileM (some (writeTo hdrBadAlg ++ List.replicate 16 0))).IsValid
      = true := by
  decide

/-- Claim C8 (amended): header validation checks only the magic tag and
the version; the algorithm identifier is never validated, so a container
whose header carries an unrecognized algorithmId passes validation and
can be reported valid. -/
theorem isValid_ignores_algorithm (h : FileHeader) (a : Nat) :
    IsValidB { h with Algorithm := a } = IsValidB h := by
  simp [IsValidB]

def aLs : List Nat := List.replicate 32 1

def bLs : List Nat := List.replicate 32 2

/-- A 32-byte PRF returning bLs on 32-byte inputs and aLs otherwise: bLs
is then a fixed point of the PBKDF2 inner chain, which makes the derived
key computable by telescoping instead of 100000 kernel steps. -/
def hmacAB : List Nat → List Nat → List Nat :=
  fun _ m => if m.length = 32 then bLs else aLs

theorem pbkdf2Loop_succ (prf : List Nat → List Nat) (n : Nat)
    (U T : List Nat) :
    pbkdf2Loop prf (n + 1) U T
      = pbkdf2Loop prf n (prf U) (xorBytes T (prf U)) := rfl

theorem pbkdf2Loop_fixed (prf : List Nat → List Nat) (b : List Nat)
    (hb : prf b = b) :
    ∀ (n : Nat) (T : List Nat), T.length = b.length →
      pbkdf2Loop prf n b T = if n % 2 = 0 then T else xorBytes T b := by
  intro n
  induction n with
  | zero =>
    intro T hT
    simp [pbkdf2Loop]
  | succ m ih =>
    intro T hT
    rw [pbkdf2Loop_succ, hb]
    rw [ih (xorBytes T b) (by rw [xorBytes_length]; omega)]
    by_cases hm2 : m % 2 = 0
    · rw [if_pos hm2, if_neg (by omega)]
    · rw [if_neg hm2, if_pos (by omega)]
      exact xorBytes_cancel T b hT.symm

theorem deriveKey_hmacAB (p s : List Nat) (hs : s.length = 32) :
    DeriveKey hmacAB p s 100000 = List.replicate 32 3 := by
  have hfix : hmacAB p bLs = bLs := by
    unfold hmacAB bLs
    rw [if_pos (by simp)]
  have hU1 : hmacAB p (s ++ natBytesBE 4 (0 + 1)) = aLs := by
    unfold hmacAB
    rw [if_neg (by simp [natBytesBE_length, hs])]
  have hstep : hmacAB p aLs = bLs := by
    unfold hmacAB aLs
    rw [if_pos (by simp)]
  unfold DeriveKey
  rw [if_neg (by norm_num), show ((100000 : Int)).toNat = 100000 from rfl]
  unfold pbkdf2Key
  rw [show (32 + 31) / 32 = 1 from rfl, show List.range 1 = [0] from rfl]
  simp only [List.map_cons, List.map_nil, List.flatten_cons,
    List.flatten_nil, List.append_nil]
  unfold pbkdf2Block
  dsimp only
  rw [hU1]
  rw [show (100000 : Nat) - 1 = 99998 + 1 from rfl]
  rw [pbkdf2Loop_succ, hstep]
  have hx : xorBytes aLs bLs = List.replicate 32 3 := by decide
  rw [hx]
  rw [pbkdf2Loop_fixed (hmacAB p) bLs hfix 99998 (List.replicate 32 3)
    (by simp [bLs])]
  rw [if_pos (by norm_num)]
  decide

/-- A checksummed header (via hashSum) for a 5-byte plaintext with a
1-byte name. -/
def c2Hdr : FileHeader :=
  NewFileHeader hashSum 5 [97] (List.replicate 32 0) (List.replicate 16 0)

/-- The serialized c2Hdr with its first salt byte (offset 12) corrupted
from 0 to 1; the stored checksum no longer matches a recomputation. -/
def c2Corrupted : List Nat := (writeTo c2Hdr).set 12 1

/-- Claim C2 (code-bug evidence): the stored checksum of the intact
header matches a recomputation and the corrupted one does not, yet the
corrupted header parses, passes IsValid, and verification reports
headerValid and even IsValid — no code path recomputes the checksum at
read time. -/
theorem checksum_never_validated :
    ((readFrom (writeTo c2Hdr)).map fun pr =>
        decide (calculateChecksum hashSum pr.1 = pr.1.Checksum))
      = some true ∧
    ((readFrom c2Corrupted).map fun pr => IsValidB pr.1) = some true ∧
    ((readFrom c2Corrupted).map fun pr =>
        decide (calculateChecksum hashSum pr.1 = pr.1.Checksum))
      = some false ∧
    (VerifyFileM (some (c2Corrupted ++ List.replicate 16 0))).HeaderValid
      = true ∧
    (VerifyFileM (some (c2Corrupted ++ List.replicate 16 0))).IsValid
      = true := by
  decide

/-- A concrete valid container with empty ciphertext: header plus a
16-byte tag region. -/
def c5Container : List Nat :=
  writeTo (NewFileHeader hashSum 0 [97] (List.replicate 32 0)
    (List.replicate 16 0)) ++ List.replicate 16 0

/-- Claim C5 (code-bug evidence): deep verification ignores its password
argument entirely — its result is identical for any two passwords — and a
valid container is reported valid under a password that cannot decrypt
it; no key derivation or decryption is attempted. -/
theorem verifyIntegrity_ignores_password :
    (∀ f p₁ p₂, VerifyIntegrityM f p₁ = VerifyIntegrityM f p₂) ∧
    (VerifyFileM (some c5Container)).IsValid = true ∧
    (VerifyIntegrityM (some c5Container) [119, 120]).IsValid = true := by
  refine ⟨fun f p₁ p₂ => rfl, by decide, by decide⟩

/-- A header-only file: valid empty-name header, no ciphertext and no
tag (120 bytes total). -/
def c4Hdr : FileHeader :=
  NewFileHeader hashSum 0 [] (List.replicate 32 0) (List.replicate 16 0)

/-- Claim C4 (code-bug evidence): on a header-only file the decryption
pipeline derives the key first and then reaches make with the negative
payload size fileSize - headerSize - tagSize = -16, which panics in Go;
no SizeMismatch error is returned and the failure is not raised before
key derivation. -/
theorem decrypt_header_only_panics :
    DecryptFileM aesZ hmacAB (writeTo c4Hdr) [112]
      = DecryptOutcome.makePanic := by
  have hwf : WFHeader c4Hdr := by decide
  have hread : readFrom (writeTo c4Hdr) = some (c4Hdr, []) := by
    have hrt := readFrom_writeTo c4Hdr hwf []
    rwa [List.append_nil] at hrt
  have hcip : NewAESCipherFromPassword hmacAB [112] c4Hdr.Salt
      = some { key := List.replicate 32 3 } := by
    unfold NewAESCipherFromPassword NewAESCipher
    rw [show c4Hdr.Salt = List.replicate 32 0 from by decide]
    rw [deriveKey_hmacAB [112] (List.replicate 32 0) (by simp)]
    rw [if_pos (by simp)]
  unfold DecryptFileM
  rw [hread, Option.elim_some]
  dsimp only
  rw [show IsValidB c4Hdr = true from by decide, if_neg (by simp)]
  rw [hcip, Option.elim_some]
  rw [show (writeTo c4Hdr).length = 120 from by decide]
  rw [show c4Hdr.FileName.length = 0 from by decide]
  rw [if_pos (by norm_num)]

/-- Claim C9 counterexample: on a successful encryption exit the cipher's
derived-key buffer still holds the derived key — here the concrete
nonzero value from hmacAB — so not every sensitive buffer is zeroed
before release. -/
theorem encrypt_key_not_zeroed_cex :
    Option.map (fun r => r.2.keyBuf)
      (EncryptFilePipeline aesZ hmacAB hashSum [97] [] (List.replicate 32 0)
        (List.replicate 16 0) [112]) = some (List.replicate 32 3) ∧
    (List.replicate 32 3).all (fun b => b == 0) = false := by
  constructor
  · have hcip : NewAESCipherFromPassword hmacAB [112] (List.replicate 32 0)
        = some { key := List.replicate 32 3 } := by
      unfold NewAESCipherFromPassword NewAESCipher
      rw [deriveKey_hmacAB [112] (List.replicate 32 0) (by simp)]
      rw [if_pos (by simp)]
    unfold EncryptFilePipeline
    rw [hcip, Option.some_bind]
    rfl
  · decide

theorem encryptSmallFileBuf_keyBuf (E : List Nat → List Nat)
    (key content iv : List Nat) :
    (EncryptSmallFileBuf E key content iv).keyBuf = key := rfl

/-- Claim C9 (amended): on the successful exit of the encryption
pipeline the transient plaintext buffer is zeroed before release, but
the derived-key buffer is not zeroed — at return it still holds the
derived key (and the failure exits of the source return before the
SecureZero call). -/
theorem encrypt_cleanup_partial (aes hmac : List Nat → List Nat → List Nat)
    (hash : List Nat → List Nat)
    (name content salt iv password : List Nat)
    (hH : ∀ k m, (hmac k m).length = 32) :
    EncryptFilePipeline aes hmac hash name content salt iv password
      = some (writeTo (NewFileHeader hash
          (content.length % 18446744073709551616) name salt iv),
        EncryptSmallFileBuf (aes (DeriveKey hmac password salt 100000))
          (DeriveKey hmac password salt 100000) content iv) ∧
    (EncryptSmallFileBuf (aes (DeriveKey hmac password salt 100000))
        (DeriveKey hmac password salt 100000) content iv).plaintextBuf
      = List.replicate content.length 0 ∧
    (EncryptSmallFileBuf (aes (DeriveKey hmac password salt 100000))
        (DeriveKey hmac password salt 100000) content iv).keyBuf
      = DeriveKey hmac password salt 100000 := by
  have hkey : (DeriveKey hmac password salt 100000).length = 32 :=
    deriveKey_length hmac hH password salt 100000
  have hcip : NewAESCipherFromPassword hmac password salt
      = some { key := DeriveKey hmac password salt 100000 } := by
    unfold NewAESCipherFromPassword NewAESCipher
    rw [if_pos hkey]
  refine ⟨?_, ?_, ?_⟩
  · unfold EncryptFilePipeline
    rw [hcip, Option.some_bind]
  · unfold EncryptSmallFileBuf SecureZero
    simp [List.map_const']
  · rw [encryptSmallFileBuf_keyBuf]

theorem encrypt_cleanup_partial_witness :
    (∀ k m, (hmacZ k m).length = 32) ∧
    (EncryptFilePipeline aesZ hmacZ hashZ [97] [104, 105]
        (List.replicate 32 0) (List.replicate 16 0) [112]
      = some (writeTo (NewFileHeader hashZ
          (([104, 105] : List Nat).length % 18446744073709551616) [97]
          (List.replicate 32 0) (List.replicate 16 0)),
        EncryptSmallFileBuf
          (aesZ (DeriveKey hmacZ [112] (List.replicate 32 0) 100000))
          (DeriveKey hmacZ [112] (List.replicate 32 0) 100000) [104, 105]
          (List.replicate 16 0)) ∧
     (EncryptSmallFileBuf
          (aesZ (DeriveKey hmacZ [112] (List.replicate 32 0) 100000))
          (DeriveKey hmacZ [112] (List.replicate 32 0) 100000) [104, 105]
          (List.replicate 16 0)).plaintextBuf
        = List.replicate ([104, 105] : List Nat).length 0 ∧
     (EncryptSmallFileBuf
          (aesZ (DeriveKey hmacZ [112] (List.replicate 32 0) 100000))
          (DeriveKey hmacZ [112] (List.replicate 32 0) 100000) [104, 105]
          (List.replicate 16 0)).keyBuf
        = DeriveKey hmacZ [112] (List.replicate 32 0) 100000) :=
  ⟨fun k m => by simp [hmacZ],
   encrypt_cleanup_partial aesZ hmacZ hashZ [97] [104, 105]
     (List.replicate 32 0) (List.replicate 16 0) [112]
     (fun k m => by simp [hmacZ])⟩
